import Mathlib

/-!
Verification of the item-catalog data-access layer
(`src/models/items-dao-mongodb.js`) and the brand schema
(`src/models/brand-schema.js`).

The JavaScript source is shallowly embedded as executable Lean functions:

* A MongoDB document of the `items` collection is a `Doc` with the three
  fields the queries touch (`_id`, `itemDescription`, `upc`) plus arbitrary
  further string-valued catalog fields, serialized in that order.
* The module-level `let db` handle is an `Option DB` (`none` while the
  fire-and-forget `getDbConnection` bootstrap has not completed).
* Each DAO function returns a `Settled Envelope × Option DB`: the first
  component is the settled state of the returned promise (`resolved` /
  `rejected`), the second the store state after the call (the source only
  issues read queries, so the claims about read-onlyness are stated on it).
* A driver-level failure is injected through a `storeFail : Option JsError`
  parameter: `some e` plays the role of the underlying MongoDB driver
  reporting the error `e` for this call (`.catch((err) => ...)` /
  the `err` argument of the callbacks).
* `JSON.stringify` on the documents at hand is `serializeDoc` /
  `serializeDocs` / `serializeOptDoc` (JSON string escaping included).
* The `$regex`/`$options: 'i'` query of `findByDescription` is embedded by
  an executable regular-expression engine: `compileRegex` parses the
  pattern text (the fragment of the JavaScript/PCRE syntax generated by the
  interpolation site: literals, `.`, `*`, `+`, `?`, `|`, groups and
  backslash-escaped punctuation; other constructs make the pattern fall
  outside the model and the query reject), and `rsearch` performs the
  unanchored, case-insensitive match by Brzozowski derivatives.
* `new mongodb.ObjectID(id)` is `mkObjectId`, modelled for the 24-character
  hexadecimal form of an ObjectID (accepting either case, normalizing to
  lower case, and throwing — rejecting the promise — on other input).
-/

/-! ## Documents and the store -/

/-- An item document. `docId` is the `_id` field in its canonical
24-character lower-case hexadecimal string form; `extra` holds the
remaining (string-valued) catalog fields in document order. -/
structure Doc where
  docId : String
  itemDescription : String
  upc : String
  extra : List (String × String)
deriving DecidableEq

/-- The backing store: the `items` collection plus every other collection
(the latter untouched by this layer, carried to state read-onlyness). -/
structure DB where
  items : List Doc
  others : List (String × List Doc)
deriving DecidableEq

/-- `db.collection(name)`. -/
def DB.collection (db : DB) (name : String) : List Doc :=
  if name = "items" then db.items
  else (((db.others.find? (fun kv => kv.1 == name)).map Prod.snd).getD [])

/-- Write a collection back into the store (identity on the rest). -/
def DB.withCollection (db : DB) (name : String) (c : List Doc) : DB :=
  if name = "items" then { db with items := c }
  else { db with others := db.others.map (fun kv => if kv.1 == name then (kv.1, c) else kv) }

/-- `collection.findOne(query)`: the first matching document, paired with
the collection state after the (read-only) query. -/
def Collection.findOne (c : List Doc) (p : Doc → Bool) : Option Doc × List Doc :=
  (c.find? p, c)

/-- `collection.find(query).toArray(...)`: all matching documents, paired
with the collection state after the (read-only) query. -/
def Collection.findAll (c : List Doc) (p : Doc → Bool) : List Doc × List Doc :=
  (c.filter p, c)

/-! ## JavaScript values and errors -/

/-- A primitive JavaScript value as passed for the `upc` parameter; the
source coerces it with a template literal. -/
inductive JsPrim where
  | str (s : String)
  | num (n : Int)
deriving DecidableEq

/-- Template-literal coercion `` `${v}` ``. -/
def jsToString : JsPrim → String
  | .str s => s
  | .num n => toString n

/-- Errors surfacing from the embedded JavaScript/driver layer. -/
inductive JsError where
  | typeError (msg : String)
  | invalidId (id : String)
  | regexError (pat : String)
  | driver (msg : String)
deriving DecidableEq

/-- A promise rejection reason: `findById` rejects with a plain message
string on a miss, every other rejection carries an error value. -/
inductive RejectReason where
  | message (s : String)
  | jsError (e : JsError)
deriving DecidableEq

/-- The settled state of a promise that has resolved or rejected. -/
inductive Settled (α : Type) where
  | resolved (value : α)
  | rejected (reason : RejectReason)
deriving DecidableEq

/-- The `{data, statusCode}` response envelope. -/
structure Envelope where
  data : String
  statusCode : Nat
deriving DecidableEq

/-- The rejection produced when `db` is still `undefined` and
`db.collection('items')` throws inside the promise executor. -/
def undefinedDbMessage : String :=
  "TypeError: Cannot read properties of undefined (reading collection)"

/-! ## ObjectID -/

/-- Is `c` a hexadecimal digit (either case)? Stated numerically on the
code point to keep the arithmetic easy. -/
def isOidChar (c : Char) : Bool :=
  (48 ≤ c.toNat && c.toNat ≤ 57) ||
  (97 ≤ c.toNat && c.toNat ≤ 102) ||
  (65 ≤ c.toNat && c.toNat ≤ 70)

/-- Is `c` a lower-case hexadecimal digit? -/
def isLowerHexChar (c : Char) : Bool :=
  (48 ≤ c.toNat && c.toNat ≤ 57) || (97 ≤ c.toNat && c.toNat ≤ 102)

/-- Is `s` an acceptable 24-character hexadecimal ObjectID string? -/
def isOidString (s : String) : Bool :=
  s.data.length == 24 && s.data.all isOidChar

/-- Is `s` a canonical (lower-case) ObjectID string, the form stored in
the `_id` field of the documents? -/
def isCanonOid (s : String) : Bool :=
  s.data.length == 24 && s.data.all isLowerHexChar

/-- `new mongodb.ObjectID(id)`: `some` canonical ObjectID string, or
`none` when the constructor throws on malformed input. -/
def mkObjectId (s : String) : Option String :=
  if isOidString s then some (String.mk (s.data.map Char.toLower)) else none

/-! ## JSON serialization (`JSON.stringify`) -/

/-- The hexadecimal digit character for `n < 16`. -/
def hexDigit (n : Nat) : Char :=
  if n < 10 then Char.ofNat (48 + n) else Char.ofNat (87 + n)

/-- `JSON.stringify` escaping of one character inside a string literal. -/
def escapeChar (c : Char) : List Char :=
  if c.toNat = 34 then ['\\', '"']
  else if c.toNat = 92 then ['\\', '\\']
  else if c.toNat = 8 then ['\\', 'b']
  else if c.toNat = 9 then ['\\', 't']
  else if c.toNat = 10 then ['\\', 'n']
  else if c.toNat = 12 then ['\\', 'f']
  else if c.toNat = 13 then ['\\', 'r']
  else if c.toNat < 32 then
    ['\\', 'u', '0', '0', hexDigit (c.toNat / 16), hexDigit (c.toNat % 16)]
  else [c]

/-- Escape a whole string body. -/
def escList : List Char → List Char
  | [] => []
  | c :: rest => escapeChar c ++ escList rest

/-- A JSON string literal. -/
def jsonStringChars (l : List Char) : List Char :=
  '"' :: escList l ++ ['"']

/-- One `"key":"value"` member. -/
def fieldChars (key value : List Char) : List Char :=
  jsonStringChars key ++ ':' :: jsonStringChars value

/-- The members for the extra catalog fields (each preceded by `,`). -/
def extraChars : List (String × String) → List Char
  | [] => []
  | (k, v) :: rest => ',' :: fieldChars k.data v.data ++ extraChars rest

/-- `JSON.stringify(document)` character content. -/
def serializeDocChars (d : Doc) : List Char :=
  '\x7b' :: fieldChars "_id".data d.docId.data
    ++ ',' :: fieldChars "itemDescription".data d.itemDescription.data
    ++ ',' :: fieldChars "upc".data d.upc.data
    ++ extraChars d.extra
    ++ ['\x7d']

/-- `JSON.stringify(document)`. -/
def serializeDoc (d : Doc) : String :=
  String.mk (serializeDocChars d)

/-- `JSON.stringify(documents)` for an array of documents. -/
def serializeDocs (l : List Doc) : String :=
  String.mk ('[' :: List.intercalate [','] (l.map serializeDocChars) ++ [']'])

/-- `JSON.stringify(document-or-null)`: `findOne` hands `null` to the
serializer on a miss. -/
def serializeOptDoc : Option Doc → String
  | some d => serializeDoc d
  | none => "null"

/-- The opening of the serialized document up to the `_id` value. -/
def serializedIdStart : List Char :=
  ['\x7b', '"', '_', 'i', 'd', '"', ':', '"']

/-- Deserialize just the id: read the leading `"_id"` member back out of
the transported JSON text. -/
def extractDocId (s : String) : Option String :=
  if s.data.take 8 = serializedIdStart then
    some (String.mk ((s.data.drop 8).takeWhile (fun c => c.toNat != 34)))
  else none

/-! ## The regular-expression engine behind `$regex` / `$options: 'i'` -/

/-- Regular expressions (the fragment reachable from the interpolated
pattern `.*${partialText}.*`): literal characters, `.`, alternation,
concatenation and Kleene star. -/
inductive Rx where
  | fail
  | eps
  | lit (c : Char)
  | dot
  | alt (r₁ r₂ : Rx)
  | cat (r₁ r₂ : Rx)
  | star (r : Rx)
deriving DecidableEq

/-- Does the pattern character `d` match the subject character `c`?
`ci` is the `i` (case-insensitive) option. -/
def charMatches (ci : Bool) (d c : Char) : Bool :=
  if ci then d.toLower == c.toLower else d == c

/-- Does the expression accept the empty string? -/
def Rx.nullable : Rx → Bool
  | .fail => false
  | .eps => true
  | .lit _ => false
  | .dot => false
  | .alt r₁ r₂ => r₁.nullable || r₂.nullable
  | .cat r₁ r₂ => r₁.nullable && r₂.nullable
  | .star _ => true

/-- Brzozowski derivative by the character `c`. In PCRE (the engine MongoDB
applies to `$regex`), `.` matches every character except the newline. -/
def Rx.deriv (ci : Bool) : Rx → Char → Rx
  | .fail, _ => .fail
  | .eps, _ => .fail
  | .lit d, c => if charMatches ci d c then .eps else .fail
  | .dot, c => if c.toNat = 10 then .fail else .eps
  | .alt r₁ r₂, c => .alt (r₁.deriv ci c) (r₂.deriv ci c)
  | .cat r₁ r₂, c =>
    if r₁.nullable then .alt (.cat (r₁.deriv ci c) r₂) (r₂.deriv ci c)
    else .cat (r₁.deriv ci c) r₂
  | .star r, c => .cat (r.deriv ci c) (.star r)

/-- Whole-string match by iterated derivatives. -/
def rmatch (ci : Bool) (r : Rx) : List Char → Bool
  | [] => r.nullable
  | c :: w => rmatch ci (r.deriv ci c) w

/-- Unanchored (PCRE-search-style) match: some substring of the subject
matches the expression. -/
def rsearch (ci : Bool) (r : Rx) (w : List Char) : Bool :=
  w.tails.any (fun suf => suf.inits.any (fun pre => rmatch ci r pre))

/-! ## The pattern parser -/

/-- The JavaScript regex metacharacters: a pattern character outside this
set stands for itself. -/
def isMetaChar (c : Char) : Bool :=
  c = '.' || c = '*' || c = '+' || c = '?' || c = '|' || c = '(' || c = ')' ||
  c = '[' || c = ']' || c = '\x7b' || c = '\x7d' || c = '^' || c = '$' || c = '\\'

/-- Apply a postfix quantifier to the parsed atom `a` if one is next. -/
def applyQuant (a : Rx) (l : List Char) : Rx × List Char :=
  match l with
  | [] => (a, [])
  | c :: rest =>
    if c = '*' then (.star a, rest)
    else if c = '+' then (.cat a (.star a), rest)
    else if c = '?' then (.alt a .eps, rest)
    else (a, c :: rest)

mutual

/-- Parse an alternation (`seq ('|' seq)*`). The fuel argument only serves
termination; the entry point supplies more than enough. -/
def parseAlt (fuel : Nat) (l : List Char) : Option (Rx × List Char) :=
  match fuel with
  | 0 => none
  | f + 1 =>
    match parseSeq f l with
    | none => none
    | some (r, rest) =>
      match rest with
      | '|' :: rest' =>
        match parseAlt f rest' with
        | none => none
        | some (r₂, rest'') => some (.alt r r₂, rest'')
      | _ => some (r, rest)

/-- Parse a concatenation of quantified atoms, stopping before `)` / `|`. -/
def parseSeq (fuel : Nat) (l : List Char) : Option (Rx × List Char) :=
  match fuel with
  | 0 => none
  | f + 1 =>
    match l with
    | [] => some (.eps, [])
    | c :: rest =>
      if c = ')' || c = '|' then some (.eps, c :: rest)
      else
        match parseAtom f (c :: rest) with
        | none => none
        | some (a, rest₁) =>
          match parseSeq f (applyQuant a rest₁).2 with
          | none => none
          | some (r₂, rest₂) => some (.cat (applyQuant a rest₁).1 r₂, rest₂)

/-- Parse one atom: `.`, a backslash escape of a punctuation character, a
parenthesized group, or a literal character. Constructs outside the
modelled fragment (classes, anchors, quantifier braces, letter/digit
escapes) are not parsed. -/
def parseAtom (fuel : Nat) (l : List Char) : Option (Rx × List Char) :=
  match fuel with
  | 0 => none
  | f + 1 =>
    match l with
    | [] => none
    | c :: rest =>
      if c = '.' then some (.dot, rest)
      else if c = '\\' then
        match rest with
        | [] => none
        | c₂ :: rest₂ => if c₂.isAlphanum then none else some (.lit c₂, rest₂)
      else if c = '(' then
        match parseAlt f rest with
        | none => none
        | some (r, rest') =>
          match rest' with
          | ')' :: rest'' => some (r, rest'')
          | _ => none
      else if isMetaChar c then none
      else some (.lit c, rest)

end

/-- The characters of the interpolated pattern `` `.*${searchText}.*` ``. -/
def patternChars (s : String) : List Char :=
  '.' :: '*' :: s.data ++ ['.', '*']

/-- The interpolated pattern `` `.*${searchText}.*` `` itself. -/
def patternOf (s : String) : String :=
  String.mk (patternChars s)

/-- Compile a pattern string, requiring it to be consumed entirely. -/
def compileRegex (pat : String) : Option Rx :=
  match parseAlt (2 * pat.data.length + 16) pat.data with
  | some (r, []) => some r
  | _ => none

/-! ## The DAO operations -/

/-- The `db` handle right after module load, before the asynchronous
`getDbConnection` bootstrap has assigned it: still `undefined`. -/
def initialDbHandle : Option DB := none

/-- The handle update performed by the bootstrap: on a resolved
`utils.dbConnect()` the shared slot is written; on a rejected one the
error is only logged and the slot keeps its previous value. -/
def dbHandleAfterConnect (current : Option DB) (outcome : Except String DB) : Option DB :=
  match outcome with
  | .ok database => some database
  | .error _ => current

/-- The message rejected by `findById` when no document matches. -/
def notFoundMessage (id : String) : String :=
  "No document matching id: " ++ id ++ " could be found!"

/-- `findById(id)`.  Returns the settled promise and the store state after
the call; `storeFail` injects a driver-reported failure. -/
def findById (db? : Option DB) (storeFail : Option JsError) (id : String) :
    Settled Envelope × Option DB :=
  match db? with
  | none => (.rejected (.jsError (.typeError undefinedDbMessage)), none)
  | some db =>
    let items := db.collection "items"
    match mkObjectId id with
    | none => (.rejected (.jsError (.invalidId id)), some db)
    | some oid =>
      match storeFail with
      | some e => (.rejected (.jsError e), some db)
      | none =>
        let r := Collection.findOne items (fun d => d.docId == oid)
        match r.1 with
        | some document =>
          (.resolved ⟨serializeDoc document, 200⟩,
            some (db.withCollection "items" r.2))
        | none =>
          (.rejected (.message (notFoundMessage id)),
            some (db.withCollection "items" r.2))

/-- `findByDescription(partialText)`. -/
def findByDescription (db? : Option DB) (storeFail : Option JsError) (searchText : String) :
    Settled Envelope × Option DB :=
  match db? with
  | none => (.rejected (.jsError (.typeError undefinedDbMessage)), none)
  | some db =>
    let items := db.collection "items"
    match storeFail with
    | some e => (.rejected (.jsError e), some db)
    | none =>
      match compileRegex (patternOf searchText) with
      | none => (.rejected (.jsError (.regexError (patternOf searchText))), some db)
      | some rx =>
        let r := Collection.findAll items (fun d => rsearch true rx d.itemDescription.data)
        (.resolved ⟨serializeDocs r.1, if 0 < r.1.length then 200 else 404⟩,
          some (db.withCollection "items" r.2))

/-- `findByUpc(upc)`. -/
def findByUpc (db? : Option DB) (storeFail : Option JsError) (upc : JsPrim) :
    Settled Envelope × Option DB :=
  match db? with
  | none => (.rejected (.jsError (.typeError undefinedDbMessage)), none)
  | some db =>
    let items := db.collection "items"
    match storeFail with
    | some e => (.rejected (.jsError e), some db)
    | none =>
      let r := Collection.findOne items (fun d => d.upc == jsToString upc)
      (.resolved ⟨serializeOptDoc r.1, if r.1.isSome then 200 else 404⟩,
        some (db.withCollection "items" r.2))

/-! ## The brand schema -/

/-- A candidate brand document as handed to the schema: every declared
path may be present or absent. -/
structure BrandInput where
  underscoreId : Option String
  brandId : Option String
  description : Option String
  manufacturer : Option String
  address : Option String
  website : Option String
deriving DecidableEq

/-- Mongoose `required: true` on an ObjectId-typed path: a value must be
present and castable to an ObjectID. -/
def checkRequiredOid : Option String → Bool
  | some s => isOidString s
  | none => false

/-- Mongoose `required: true` on a String-typed path: a value must be
present and non-empty. -/
def checkRequiredString : Option String → Bool
  | some s => decide (s.data ≠ [])
  | none => false

/-- Validation induced by `brandSchema`: `_id`, `id` and `description` are
`required: true`; `manufacturer`, `address` and `website` are
`required: false` and unconstrained. -/
def brandValidate (b : BrandInput) : Bool :=
  checkRequiredOid b.underscoreId &&
  checkRequiredOid b.brandId &&
  checkRequiredString b.description

/-! ## Sample store used by the concrete witnesses -/

/-- The scenario document of the specification. -/
def sampleDoc : Doc :=
  { docId := "0123456789abcdef01234567", itemDescription := "Red Widget",
    upc := "00012345", extra := [] }

/-- A store holding just the scenario document. -/
def sampleDb : DB := { items := [sampleDoc], others := [] }

/-- A document whose description contains the text `a+b` literally. -/
def cexDoc : Doc :=
  { docId := "00000000000000000000abcd", itemDescription := "xa+by",
    upc := "77777", extra := [] }

/-- A store holding just `cexDoc`. -/
def cexDb : DB := { items := [cexDoc], others := [] }

/-! ## Helper lemmas: `find?`, ObjectIDs and serialization -/

theorem find?_eq_some_of_unique {p : Doc → Bool} {l : List Doc} {a : Doc}
    (ha : a ∈ l) (hp : p a = true) (hu : ∀ x ∈ l, p x = true → x = a) :
    l.find? p = some a := by
  induction l with
  | nil => cases ha
  | cons b t ih =>
    by_cases hb : p b = true
    · have hba : b = a := hu b (List.mem_cons_self b t) hb
      subst hba
      exact List.find?_cons_of_pos t hb
    · rw [List.find?_cons_of_neg t hb]
      rcases List.mem_cons.mp ha with h | h
      · exact absurd (h ▸ hp) hb
      · exact ih h (fun x hx => hu x (List.mem_cons_of_mem b hx))

theorem toLower_eq_self_of_lower_hex {c : Char} (h : isLowerHexChar c = true) :
    c.toLower = c := by
  have hb : (48 ≤ c.toNat ∧ c.toNat ≤ 57) ∨ (97 ≤ c.toNat ∧ c.toNat ≤ 102) := by
    simpa [isLowerHexChar, Bool.or_eq_true, Bool.and_eq_true,
      decide_eq_true_iff] using h
  show (if c.toNat ≥ 65 ∧ c.toNat ≤ 90 then Char.ofNat (c.toNat + 32) else c) = c
  rw [if_neg (by omega)]

theorem map_toLower_eq_self {l : List Char}
    (h : ∀ c ∈ l, isLowerHexChar c = true) : l.map Char.toLower = l := by
  induction l with
  | nil => rfl
  | cons c t ih =>
    simp only [List.map_cons]
    rw [toLower_eq_self_of_lower_hex (h c (List.mem_cons_self c t)),
      ih (fun x hx => h x (List.mem_cons_of_mem c hx))]

theorem lower_hex_is_oid {c : Char} (h : isLowerHexChar c = true) :
    isOidChar c = true := by
  simp only [isLowerHexChar, Bool.or_eq_true, Bool.and_eq_true,
    decide_eq_true_iff] at h
  simp only [isOidChar, Bool.or_eq_true, Bool.and_eq_true, decide_eq_true_iff]
  omega

theorem mkObjectId_of_canon {s : String} (h : isCanonOid s = true) :
    mkObjectId s = some s := by
  simp only [isCanonOid, Bool.and_eq_true, beq_iff_eq, List.all_eq_true] at h
  have hoid : isOidString s = true := by
    simp only [isOidString, Bool.and_eq_true, beq_iff_eq, List.all_eq_true]
    exact ⟨h.1, fun c hc => lower_hex_is_oid (h.2 c hc)⟩
  simp only [mkObjectId, hoid, if_true]
  rw [map_toLower_eq_self h.2]

theorem escapeChar_eq_self {c : Char} (h34 : c.toNat ≠ 34) (h92 : c.toNat ≠ 92)
    (h32 : 32 ≤ c.toNat) : escapeChar c = [c] := by
  unfold escapeChar
  split_ifs <;> first | rfl | omega

theorem escapeChar_eq_self_of_lower_hex {c : Char} (h : isLowerHexChar c = true) :
    escapeChar c = [c] := by
  simp only [isLowerHexChar, Bool.or_eq_true, Bool.and_eq_true,
    decide_eq_true_iff] at h
  exact escapeChar_eq_self (by omega) (by omega) (by omega)

theorem escList_eq_self {l : List Char} (h : ∀ c ∈ l, escapeChar c = [c]) :
    escList l = l := by
  induction l with
  | nil => rfl
  | cons c t ih =>
    simp only [escList, h c (List.mem_cons_self c t),
      ih (fun x hx => h x (List.mem_cons_of_mem c hx)), List.cons_append,
      List.nil_append]

theorem takeWhile_append_stop {p : Char → Bool} :
    ∀ (xs : List Char) (y : Char) (ys : List Char), (∀ x ∈ xs, p x = true) →
      p y = false → List.takeWhile p (xs ++ y :: ys) = xs := by
  intro xs y ys hxs hy
  induction xs with
  | nil => simp [List.takeWhile_cons, hy]
  | cons x t ih =>
    have hx : p x = true := hxs x (List.mem_cons_self x t)
    simp only [List.cons_append, List.takeWhile_cons, hx, if_true]
    rw [ih (fun a ha => hxs a (List.mem_cons_of_mem x ha))]

theorem extractDocId_serializeDoc {d : Doc} (h : isCanonOid d.docId = true) :
    extractDocId (serializeDoc d) = some d.docId := by
  simp only [isCanonOid, Bool.and_eq_true, beq_iff_eq, List.all_eq_true] at h
  have hesc : escList d.docId.data = d.docId.data :=
    escList_eq_self (fun c hc => escapeChar_eq_self_of_lower_hex (h.2 c hc))
  have hshape : serializeDocChars d = serializedIdStart ++
      (d.docId.data ++ '"' ::
        (',' :: fieldChars "itemDescription".data d.itemDescription.data
          ++ ',' :: fieldChars "upc".data d.upc.data
          ++ extraChars d.extra ++ ['\x7d'])) := by
    simp only [serializeDocChars, fieldChars, jsonStringChars, serializedIdStart]
    rw [show escList "_id".data = "_id".data from escList_eq_self (by decide)]
    rw [hesc]
    simp
  have htake : ∀ c ∈ d.docId.data, (c.toNat != 34) = true := by
    intro c hc
    have := h.2 c hc
    simp only [isLowerHexChar, Bool.or_eq_true, Bool.and_eq_true,
      decide_eq_true_iff] at this
    simp only [bne_iff_ne, ne_eq]
    omega
  simp only [extractDocId, serializeDoc, hshape]
  have hlen : (serializedIdStart ++
      (d.docId.data ++ '"' ::
        (',' :: fieldChars "itemDescription".data d.itemDescription.data
          ++ ',' :: fieldChars "upc".data d.upc.data
          ++ extraChars d.extra ++ ['\x7d']))).take 8 = serializedIdStart := rfl
  have hdrop : (serializedIdStart ++
      (d.docId.data ++ '"' ::
        (',' :: fieldChars "itemDescription".data d.itemDescription.data
          ++ ',' :: fieldChars "upc".data d.upc.data
          ++ extraChars d.extra ++ ['\x7d']))).drop 8 =
      d.docId.data ++ '"' ::
        (',' :: fieldChars "itemDescription".data d.itemDescription.data
          ++ ',' :: fieldChars "upc".data d.upc.data
          ++ extraChars d.extra ++ ['\x7d']) := rfl
  rw [hlen, if_pos rfl, hdrop]
  rw [takeWhile_append_stop d.docId.data '"' _ htake (by decide)]

/-! ## Helper lemmas: the regex matcher -/

theorem rmatch_alt (ci : Bool) :
    ∀ (w : List Char) (a b : Rx),
      rmatch ci (.alt a b) w = (rmatch ci a w || rmatch ci b w) := by
  intro w
  induction w with
  | nil => intro a b; rfl
  | cons c t ih => intro a b; exact ih (a.deriv ci c) (b.deriv ci c)

theorem rmatch_cat_of_nullable (ci : Bool) :
    ∀ (v : List Char) (a b : Rx), a.nullable = true → rmatch ci b v = true →
      rmatch ci (.cat a b) v = true := by
  intro v
  induction v with
  | nil =>
    intro a b ha hb
    simp only [rmatch, Rx.nullable, Bool.and_eq_true]
    exact ⟨ha, hb⟩
  | cons c t ih =>
    intro a b ha hb
    show rmatch ci ((Rx.cat a b).deriv ci c) t = true
    simp only [Rx.deriv, ha, if_true]
    rw [rmatch_alt]
    have : rmatch ci (b.deriv ci c) t = true := hb
    simp [this]

theorem rmatch_cat_append (ci : Bool) :
    ∀ (u : List Char) (a : Rx) (v : List Char) (b : Rx),
      rmatch ci a u = true → rmatch ci b v = true →
      rmatch ci (.cat a b) (u ++ v) = true := by
  intro u
  induction u with
  | nil => intro a v b ha hb; exact rmatch_cat_of_nullable ci v a b ha hb
  | cons c t ih =>
    intro a v b ha hb
    show rmatch ci ((Rx.cat a b).deriv ci c) (t ++ v) = true
    have hstep : rmatch ci (.cat (a.deriv ci c) b) (t ++ v) = true :=
      ih (a.deriv ci c) v b ha hb
    simp only [Rx.deriv]
    by_cases hn : a.nullable = true
    · simp only [hn, if_true]
      rw [rmatch_alt]
      simp [hstep]
    · simp only [Bool.not_eq_true] at hn
      simp only [hn, Bool.false_eq_true, if_false]
      exact hstep

/-- The tail of the compiled pattern after the leading `.*`: the literal
characters of the search text followed by the trailing `.*`. -/
def litChainTail : List Char → Rx
  | [] => .cat (.star .dot) .eps
  | c :: cs => .cat (.lit c) (litChainTail cs)

/-- Character-wise case-insensitive equality of a subject chunk `t` with
the pattern literals `s`. -/
def ciMatchList : List Char → List Char → Bool
  | [], [] => true
  | c :: t, d :: s => charMatches true d c && ciMatchList t s
  | _, _ => false

theorem rmatch_litChainTail :
    ∀ (s t : List Char), ciMatchList t s = true →
      rmatch true (litChainTail s) t = true := by
  intro s
  induction s with
  | nil =>
    intro t ht
    cases t with
    | nil => rfl
    | cons c t' => simp [ciMatchList] at ht
  | cons d s' ih =>
    intro t ht
    cases t with
    | nil => simp [ciMatchList] at ht
    | cons c t' =>
      simp only [ciMatchList, Bool.and_eq_true] at ht
      have hlit : rmatch true (.lit d) [c] = true := by
        simp only [rmatch, Rx.deriv, ht.1, if_true]
        rfl
      have := rmatch_cat_append true [c] (.lit d) t' (litChainTail s') hlit
        (ih t' ht.2)
      simpa using this

theorem rsearch_of_middle (ci : Bool) (r : Rx) {w u t v : List Char}
    (hw : w = u ++ t ++ v) (hm : rmatch ci r t = true) :
    rsearch ci r w = true := by
  simp only [rsearch, List.any_eq_true]
  refine ⟨t ++ v, ?_, t, ?_, hm⟩
  · exact (List.mem_tails _ _).mpr ⟨u, by rw [hw, List.append_assoc]⟩
  · exact (List.mem_inits _ _).mpr ⟨v, rfl⟩

/-! ## Helper lemmas: the pattern parser on metacharacter-free text -/

theorem nonMeta_ne {c x : Char} (h : isMetaChar c = false) (hx : isMetaChar x = true) :
    c ≠ x := fun he => by rw [he, hx] at h; cases h

theorem applyQuant_of_nonquant (a : Rx) (c : Char) (rest : List Char)
    (h1 : c ≠ '*') (h2 : c ≠ '+') (h3 : c ≠ '?') :
    applyQuant a (c :: rest) = (a, c :: rest) := by
  simp [applyQuant, h1, h2, h3]

theorem parseAtom_nonmeta {c : Char} (f : Nat) (rest : List Char)
    (h : isMetaChar c = false) :
    parseAtom (f + 1) (c :: rest) = some (.lit c, rest) := by
  have h1 : c ≠ '.' := nonMeta_ne h (by decide)
  have h2 : c ≠ '\\' := nonMeta_ne h (by decide)
  have h3 : c ≠ '(' := nonMeta_ne h (by decide)
  simp [parseAtom, h1, h2, h3, h]

theorem parseSeq_succ_cons (f : Nat) (c : Char) (rest : List Char) :
    parseSeq (f + 1) (c :: rest) =
      if c = ')' || c = '|' then some (.eps, c :: rest)
      else
        match parseAtom f (c :: rest) with
        | none => none
        | some (a, rest₁) =>
          match parseSeq f (applyQuant a rest₁).2 with
          | none => none
          | some (r₂, rest₂) => some (.cat (applyQuant a rest₁).1 r₂, rest₂) := rfl

theorem parseSeq_literal :
    ∀ (s : List Char) (fuel : Nat), (∀ c ∈ s, isMetaChar c = false) →
      2 * s.length + 4 ≤ fuel →
      parseSeq fuel (s ++ ['.', '*']) = some (litChainTail s, []) := by
  intro s
  induction s with
  | nil =>
    intro fuel _ hfuel
    match fuel, hfuel with
    | f + 1, _ =>
    match f, (by omega : 1 ≤ f) with
    | g + 1, _ =>
    simp [parseSeq, parseAtom, applyQuant, litChainTail]
  | cons c cs ih =>
    intro fuel hmeta hfuel
    have hc : isMetaChar c = false := hmeta c (List.mem_cons_self c cs)
    match fuel, (by omega : 1 ≤ fuel) with
    | f + 1, _ =>
    match f, (by simp at hfuel; omega : 1 ≤ f) with
    | g + 1, _ =>
    have hcp : c ≠ ')' := nonMeta_ne hc (by decide)
    have hcb : c ≠ '|' := nonMeta_ne hc (by decide)
    have hA : parseAtom (g + 1) (c :: (cs ++ ['.', '*'])) =
        some (.lit c, cs ++ ['.', '*']) := parseAtom_nonmeta g _ hc
    have happ : applyQuant (.lit c) (cs ++ ['.', '*']) =
        (.lit c, cs ++ ['.', '*']) := by
      cases cs with
      | nil => simp [applyQuant]
      | cons c' cs' =>
        have hc' : isMetaChar c' = false := hmeta c' (by simp)
        rw [List.cons_append]
        exact applyQuant_of_nonquant _ c' _ (nonMeta_ne hc' (by decide))
          (nonMeta_ne hc' (by decide)) (nonMeta_ne hc' (by decide))
    have hrec : parseSeq (g + 1) (cs ++ ['.', '*']) = some (litChainTail cs, []) := by
      refine ih (g + 1) (fun x hx => hmeta x (List.mem_cons_of_mem c hx)) ?_
      simp only [List.length_cons] at hfuel
      omega
    rw [List.cons_append, parseSeq_succ_cons]
    simp [hcp, hcb, hA, happ, hrec, litChainTail]

theorem parseSeq_dotstar_literal :
    ∀ (s : List Char) (fuel : Nat), (∀ c ∈ s, isMetaChar c = false) →
      2 * s.length + 6 ≤ fuel →
      parseSeq fuel ('.' :: '*' :: (s ++ ['.', '*'])) =
        some (.cat (.star .dot) (litChainTail s), []) := by
  intro s fuel hmeta hfuel
  match fuel, (by omega : 1 ≤ fuel) with
  | f + 1, _ =>
  match f, (by omega : 1 ≤ f) with
  | g + 1, _ =>
  have hA : parseAtom (g + 1) ('.' :: '*' :: (s ++ ['.', '*'])) =
      some (.dot, '*' :: (s ++ ['.', '*'])) := by simp [parseAtom]
  have happ : applyQuant .dot ('*' :: (s ++ ['.', '*'])) =
      (.star .dot, s ++ ['.', '*']) := by simp [applyQuant]
  have hrec : parseSeq (g + 1) (s ++ ['.', '*']) = some (litChainTail s, []) :=
    parseSeq_literal s (g + 1) hmeta (by omega)
  rw [parseSeq_succ_cons]
  simp [hA, happ, hrec]

theorem parseAlt_succ (f : Nat) (l : List Char) :
    parseAlt (f + 1) l =
      match parseSeq f l with
      | none => none
      | some (r, rest) =>
        match rest with
        | '|' :: rest' =>
          match parseAlt f rest' with
          | none => none
          | some (r₂, rest'') => some (.alt r r₂, rest'')
        | _ => some (r, rest) := rfl

theorem compileRegex_literal {s : String}
    (hmeta : ∀ c ∈ s.data, isMetaChar c = false) :
    compileRegex (patternOf s) = some (.cat (.star .dot) (litChainTail s.data)) := by
  have hdata : (patternOf s).data = '.' :: '*' :: (s.data ++ ['.', '*']) := rfl
  have harith : 2 * (patternOf s).data.length + 16 = (2 * s.data.length + 23) + 1 := by
    rw [hdata]
    simp only [List.length_cons, List.length_append, List.length_cons,
      List.length_nil]
    omega
  have hseq : parseSeq (2 * s.data.length + 23) ('.' :: '*' :: (s.data ++ ['.', '*'])) =
      some (.cat (.star .dot) (litChainTail s.data), []) :=
    parseSeq_dotstar_literal s.data _ hmeta (by omega)
  unfold compileRegex
  rw [harith, hdata, parseAlt_succ, hseq]

/-! ## Helper lemmas: the store -/

theorem collection_items (db : DB) : db.collection "items" = db.items :=
  if_pos rfl

theorem withCollection_items_self (db : DB) :
    db.withCollection "items" db.items = db := by
  rw [DB.withCollection, if_pos rfl]

/-! ## The claims -/

/-- C1: `findByUpc(code)` matches only a document whose `upc` field exactly
equals the string form of `code`: when such a document exists the promise
resolves with the serialized document and status 200, and when none does —
in particular when stored UPC values merely contain the code as a proper
substring — it resolves with the serialization of `null` and status 404, a
successful empty result rather than a failure. -/
theorem findByUpc_exact (db : DB) (code : JsPrim) :
    ((∃ d ∈ db.items, d.upc = jsToString code) →
      ∃ d ∈ db.items, d.upc = jsToString code ∧
        (findByUpc (some db) none code).1 = .resolved ⟨serializeDoc d, 200⟩) ∧
    ((∀ d ∈ db.items, d.upc ≠ jsToString code) →
      (findByUpc (some db) none code).1 = .resolved ⟨"null", 404⟩) := by
  constructor
  · rintro ⟨d₀, hmem, hupc⟩
    have hsome : (db.items.find? (fun d => d.upc == jsToString code)).isSome := by
      rw [List.find?_isSome]
      exact ⟨d₀, hmem, by simp [hupc]⟩
    obtain ⟨d, hfind⟩ := Option.isSome_iff_exists.mp hsome
    refine ⟨d, List.mem_of_find?_eq_some hfind,
      by simpa using List.find?_some hfind, ?_⟩
    simp [findByUpc, Collection.findOne, collection_items, hfind, serializeOptDoc]
  · intro h
    have hnone : db.items.find? (fun d => d.upc == jsToString code) = none :=
      List.find?_eq_none.mpr (fun x hx => by simp [h x hx])
    simp [findByUpc, Collection.findOne, collection_items, hnone, serializeOptDoc]

/-- C1 witness: in the specification scenario store, the exact UPC
`00012345` is found with status 200, while its proper substring `000123`
yields the 404 / `null` empty success. -/
theorem findByUpc_exact_w :
    (∃ d ∈ sampleDb.items, d.upc = jsToString (.str "00012345") ∧
      (findByUpc (some sampleDb) none (.str "00012345")).1 =
        .resolved ⟨serializeDoc d, 200⟩) ∧
    (findByUpc (some sampleDb) none (.str "000123")).1 =
      .resolved ⟨"null", 404⟩ :=
  ⟨(findByUpc_exact sampleDb (.str "00012345")).1
      ⟨sampleDoc, by decide, by decide⟩,
    (findByUpc_exact sampleDb (.str "000123")).2 (by decide)⟩

/-- C2: for an id with no matching document, `findById` never resolves: it
rejects whatever the driver does, and — for a well-formed id with an
operational store — it rejects with the descriptive not-found message,
which names the id (the id text occurs inside the message). -/
theorem findById_missing_rejects (db : DB) (id : String)
    (hmiss : ∀ d ∈ db.items, mkObjectId id ≠ some d.docId) :
    (∀ storeFail, ∃ r, (findById (some db) storeFail id).1 = .rejected r) ∧
    (isOidString id = true →
      (findById (some db) none id).1 =
        .rejected (.message (notFoundMessage id)) ∧
      ∃ u v, (notFoundMessage id).data = u ++ id.data ++ v) := by
  have hfindnone : ∀ oid, mkObjectId id = some oid →
      db.items.find? (fun x => x.docId == oid) = none := by
    intro oid hoid
    refine List.find?_eq_none.mpr (fun x hx => ?_)
    simp only [beq_iff_eq]
    intro heq
    exact hmiss x hx (hoid.trans (congrArg some heq.symm))
  constructor
  · intro storeFail
    rcases hmk : mkObjectId id with _ | oid
    · exact ⟨.jsError (.invalidId id), by simp [findById, hmk]⟩
    · rcases storeFail with _ | e
      · have hnone := hfindnone oid hmk
        exact ⟨.message (notFoundMessage id),
          by simp [findById, hmk, Collection.findOne, collection_items, hnone]⟩
      · exact ⟨.jsError e, by simp [findById, hmk]⟩
  · intro hvalid
    have hmk : mkObjectId id = some (String.mk (id.data.map Char.toLower)) := by
      simp [mkObjectId, hvalid]
    have hnone := hfindnone _ hmk
    constructor
    · simp [findById, hmk, Collection.findOne, collection_items, hnone]
    · exact ⟨"No document matching id: ".data, " could be found!".data,
        by simp [notFoundMessage]⟩

/-- C2 witness: the valid, absent id `ffffffffffffffffffffffff` is rejected
with the not-found message naming it. -/
theorem findById_missing_rejects_w :
    (findById (some sampleDb) none "ffffffffffffffffffffffff").1 =
      .rejected (.message (notFoundMessage "ffffffffffffffffffffffff")) :=
  (((findById_missing_rejects sampleDb "ffffffffffffffffffffffff"
      (by decide)).2) (by decide)).1

/-- C3: for a valid stored item (well-formed canonical id, ids unique in
the collection), `findById(item.id)` resolves with the envelope
`{data: serialized(document), statusCode: 200}`, and the data is a text
serialization from which the stored id can be read back. -/
theorem findById_found_roundtrip (db : DB) (d : Doc)
    (hmem : d ∈ db.items)
    (huniq : ∀ x ∈ db.items, x.docId = d.docId → x = d)
    (hcanon : isCanonOid d.docId = true) :
    (findById (some db) none d.docId).1 = .resolved ⟨serializeDoc d, 200⟩ ∧
    extractDocId (serializeDoc d) = some d.docId := by
  have hmk : mkObjectId d.docId = some d.docId := mkObjectId_of_canon hcanon
  have hfind : db.items.find? (fun x => x.docId == d.docId) = some d :=
    find?_eq_some_of_unique hmem (by simp)
      (fun x hx hpx => huniq x hx (by simpa using hpx))
  refine ⟨?_, extractDocId_serializeDoc hcanon⟩
  simp [findById, hmk, Collection.findOne, collection_items, hfind]

/-- C3 witness: the scenario item round-trips through `findById` and the
id deserializes back out of the payload. -/
theorem findById_found_roundtrip_w :
    (findById (some sampleDb) none sampleDoc.docId).1 =
      .resolved ⟨serializeDoc sampleDoc, 200⟩ ∧
    extractDocId (serializeDoc sampleDoc) = some sampleDoc.docId :=
  findById_found_roundtrip sampleDb sampleDoc (by decide) (by decide) (by decide)

/-- C4 counterexample: the description `xa+by` contains the search text
`a+b` literally, yet the interpolated pattern `.*a+b.*` is interpreted as
a regex (`+` is a quantifier), nothing matches, and the call resolves with
an empty array and status 404 instead of including the item with 200. -/
theorem findByDescription_metachar_cex :
    (∃ u t v, cexDoc.itemDescription.data = u ++ t ++ v ∧
      ciMatchList t ("a+b").data = true) ∧
    cexDoc ∈ cexDb.items ∧
    (findByDescription (some cexDb) none "a+b").1 =
      .resolved ⟨serializeDocs [], 404⟩ :=
  ⟨⟨['x'], ['a', '+', 'b'], ['y'], by decide, by decide⟩, by decide, by decide⟩

/-- C4 (amended): for search text `S` free of regex metacharacters — the
pattern is built by interpolating `S` into `.*S.*` unescaped — every
stored item whose description contains `S` case-insensitively is included
in the resolved array, with status 200.  (For `S` with metacharacters the
pattern's regex semantics apply, and containment need not give a match.) -/
theorem findByDescription_contains_included (db : DB) (s : String) (d : Doc)
    (hmeta : ∀ c ∈ s.data, isMetaChar c = false)
    (hd : d ∈ db.items)
    (hsub : ∃ u t v, d.itemDescription.data = u ++ t ++ v ∧
      ciMatchList t s.data = true) :
    ∃ rx, compileRegex (patternOf s) = some rx ∧
      d ∈ db.items.filter (fun x => rsearch true rx x.itemDescription.data) ∧
      (findByDescription (some db) none s).1 =
        .resolved ⟨serializeDocs
          (db.items.filter (fun x => rsearch true rx x.itemDescription.data)),
          200⟩ := by
  obtain ⟨u, t, v, hw, hci⟩ := hsub
  refine ⟨.cat (.star .dot) (litChainTail s.data), compileRegex_literal hmeta, ?_, ?_⟩
  · exact List.mem_filter.mpr ⟨hd, rsearch_of_middle true _ hw
      (rmatch_cat_of_nullable true t _ _ rfl (rmatch_litChainTail s.data t hci))⟩
  · have hmem : d ∈ db.items.filter
        (fun x => rsearch true (Rx.cat (.star .dot) (litChainTail s.data))
          x.itemDescription.data) :=
      List.mem_filter.mpr ⟨hd, rsearch_of_middle true _ hw
        (rmatch_cat_of_nullable true t _ _ rfl (rmatch_litChainTail s.data t hci))⟩
    have hpos : 0 < (db.items.filter
        (fun x => rsearch true (Rx.cat (.star .dot) (litChainTail s.data))
          x.itemDescription.data)).length :=
      List.length_pos_of_mem hmem
    simp [findByDescription, compileRegex_literal hmeta, Collection.findAll,
      collection_items, hpos]

/-- C4 witness: in the scenario store, searching `widget` (no
metacharacters) includes the item with description `Red Widget`,
case-insensitively, with status 200. -/
theorem findByDescription_contains_included_w :
    ∃ rx, compileRegex (patternOf "widget") = some rx ∧
      sampleDoc ∈ sampleDb.items.filter
        (fun x => rsearch true rx x.itemDescription.data) ∧
      (findByDescription (some sampleDb) none "widget").1 =
        .resolved ⟨serializeDocs
          (sampleDb.items.filter (fun x => rsearch true rx x.itemDescription.data)),
          200⟩ :=
  findByDescription_contains_included sampleDb "widget" sampleDoc (by decide)
    (by decide)
    ⟨"Red ".data, "Widget".data, [], by decide, by decide⟩

/-- C5: whenever the interpolated pattern compiles, `findByDescription`
resolves (a miss is not a failure): the envelope carries the serialized
match array with status 200 exactly when it is non-empty, and with zero
matches it is exactly the serialization of the empty array with 404. -/
theorem findByDescription_empty_resolves (db : DB) (s : String) (rx : Rx)
    (hc : compileRegex (patternOf s) = some rx) :
    (findByDescription (some db) none s).1 =
      .resolved ⟨serializeDocs
        (db.items.filter (fun x => rsearch true rx x.itemDescription.data)),
        if 0 < (db.items.filter
          (fun x => rsearch true rx x.itemDescription.data)).length
        then 200 else 404⟩ ∧
    ((∀ x ∈ db.items, rsearch true rx x.itemDescription.data = false) →
      (findByDescription (some db) none s).1 = .resolved ⟨"[]", 404⟩) := by
  constructor
  · simp [findByDescription, hc, Collection.findAll, collection_items]
  · intro h
    have hnil : db.items.filter (fun x => rsearch true rx x.itemDescription.data) = [] :=
      List.filter_eq_nil_iff.mpr (fun a ha => by simp [h a ha])
    simp [findByDescription, hc, Collection.findAll, collection_items, hnil]
    rfl

/-- C5 witness: searching `zzz` over the store holding only `cexDoc`
matches nothing and resolves with the serialized empty array and 404. -/
theorem findByDescription_empty_resolves_w :
    (findByDescription (some cexDb) none "zzz").1 = .resolved ⟨"[]", 404⟩ :=
  (findByDescription_empty_resolves cexDb "zzz"
    (.cat (.star .dot) (litChainTail "zzz".data)) (by decide)).2 (by decide)

/-- C6: a driver-reported failure is propagated unchanged — the very same
error value — as the rejection of each of the three operations; no retry,
no local recovery. -/
theorem store_error_propagated (db : DB) (e : JsError) (id s : String) (u : JsPrim)
    (hid : isOidString id = true) :
    (findById (some db) (some e) id).1 = .rejected (.jsError e) ∧
    (findByDescription (some db) (some e) s).1 = .rejected (.jsError e) ∧
    (findByUpc (some db) (some e) u).1 = .rejected (.jsError e) := by
  refine ⟨?_, rfl, rfl⟩
  have hmk : mkObjectId id = some (String.mk (id.data.map Char.toLower)) := by
    simp [mkObjectId, hid]
  simp [findById, hmk]

/-- C6 witness: a concrete driver error comes back verbatim from all three
operations. -/
theorem store_error_propagated_w :
    (findById (some sampleDb) (some (.driver "socket closed"))
      "0123456789abcdef01234567").1 =
      .rejected (.jsError (.driver "socket closed")) ∧
    (findByDescription (some sampleDb) (some (.driver "socket closed")) "x").1 =
      .rejected (.jsError (.driver "socket closed")) ∧
    (findByUpc (some sampleDb) (some (.driver "socket closed")) (.str "1")).1 =
      .rejected (.jsError (.driver "socket closed")) :=
  store_error_propagated sampleDb (.driver "socket closed")
    "0123456789abcdef01234567" "x" (.str "1") (by decide)

/-- C7: a lookup that runs before the connection bootstrap has populated
the shared handle (`initialDbHandle` is the still-undefined module slot)
rejects with the null-handle `TypeError` — the throw inside the promise
executor becomes a clean rejection, not a crash — for every operation,
every input and every injected driver outcome. -/
theorem query_before_init_rejects (storeFail : Option JsError) (id s : String)
    (u : JsPrim) :
    (findById initialDbHandle storeFail id).1 =
      .rejected (.jsError (.typeError undefinedDbMessage)) ∧
    (findByDescription initialDbHandle storeFail s).1 =
      .rejected (.jsError (.typeError undefinedDbMessage)) ∧
    (findByUpc initialDbHandle storeFail u).1 =
      .rejected (.jsError (.typeError undefinedDbMessage)) :=
  ⟨rfl, rfl, rfl⟩

/-- C8: the three lookups are read-only: after any call the store state —
the item collection and every other collection — equals the state before,
for every handle state, injected driver outcome and input. -/
theorem lookups_read_only (db? : Option DB) (storeFail : Option JsError)
    (id s : String) (u : JsPrim) :
    (findById db? storeFail id).2 = db? ∧
    (findByDescription db? storeFail s).2 = db? ∧
    (findByUpc db? storeFail u).2 = db? := by
  rcases db? with _ | db
  · exact ⟨rfl, rfl, rfl⟩
  · refine ⟨?_, ?_, ?_⟩
    · rcases hmk : mkObjectId id with _ | oid
      · simp [findById, hmk]
      · rcases storeFail with _ | e
        · rcases hf : db.items.find? (fun x => x.docId == oid) with _ | d <;>
            simp [findById, hmk, Collection.findOne, collection_items, hf,
              withCollection_items_self]
        · simp [findById, hmk]
    · rcases storeFail with _ | e
      · rcases hc : compileRegex (patternOf s) with _ | rx
        · simp [findByDescription, hc]
        · simp [findByDescription, hc, Collection.findAll, collection_items,
            withCollection_items_self]
      · simp [findByDescription]
    · rcases storeFail with _ | e
      · simp [findByUpc, Collection.findOne, collection_items,
          withCollection_items_self]
      · simp [findByUpc]

/-- C9: a document accepted by the brand schema has `id` and `description`
present (required paths), while `manufacturer`, `address` and `website`
are optional: an accepted document may omit all three. -/
theorem brand_required_optional :
    (∀ b : BrandInput, brandValidate b = true →
      b.brandId.isSome = true ∧ b.description.isSome = true) ∧
    (∃ b : BrandInput, brandValidate b = true ∧ b.manufacturer = none ∧
      b.address = none ∧ b.website = none) := by
  constructor
  · intro b hb
    simp only [brandValidate, Bool.and_eq_true] at hb
    constructor
    · cases hbid : b.brandId with
      | none => rw [hbid] at hb; simp [checkRequiredOid] at hb
      | some sId => rfl
    · cases hdesc : b.description with
      | none => rw [hdesc] at hb; simp [checkRequiredString] at hb
      | some sDesc => rfl
  · exact ⟨⟨some "0123456789abcdef01234567", some "0123456789abcdef01234567",
      some "ACME", none, none, none⟩, by decide, rfl, rfl, rfl⟩

/-- C9 witness: a concrete accepted brand document has `id` and
`description` present. -/
theorem brand_required_optional_w :
    (BrandInput.brandId ⟨some "0123456789abcdef01234567",
        some "0123456789abcdef01234567", some "ACME", none, none, none⟩).isSome
      = true ∧
    (BrandInput.description ⟨some "0123456789abcdef01234567",
        some "0123456789abcdef01234567", some "ACME", none, none, none⟩).isSome
      = true :=
  brand_required_optional.1 _ (by decide)

/-- C10: whenever one of the three lookups resolves, the envelope's status
code is 200 or 404 (`findById` only ever resolves with 200) and its data
field is the JSON text serialization of a query result — a document, an
array of documents, or a document-or-null; no other status code occurs. -/
theorem resolved_envelope_invariant (db? : Option DB) (storeFail : Option JsError)
    (id s : String) (u : JsPrim) :
    (∀ env, (findById db? storeFail id).1 = .resolved env →
      env.statusCode = 200 ∧ ∃ d, env.data = serializeDoc d) ∧
    (∀ env, (findByDescription db? storeFail s).1 = .resolved env →
      (env.statusCode = 200 ∨ env.statusCode = 404) ∧
      ∃ ds, env.data = serializeDocs ds) ∧
    (∀ env, (findByUpc db? storeFail u).1 = .resolved env →
      (env.statusCode = 200 ∨ env.statusCode = 404) ∧
      ∃ od, env.data = serializeOptDoc od) := by
  rcases db? with _ | db
  · refine ⟨fun env h => ?_, fun env h => ?_, fun env h => ?_⟩ <;>
      simp [findById, findByDescription, findByUpc] at h
  · refine ⟨fun env h => ?_, fun env h => ?_, fun env h => ?_⟩
    · rcases hmk : mkObjectId id with _ | oid
      · simp [findById, hmk] at h
      · rcases storeFail with _ | e
        · rcases hf : db.items.find? (fun x => x.docId == oid) with _ | d
          · simp [findById, hmk, Collection.findOne, collection_items, hf] at h
          · simp [findById, hmk, Collection.findOne, collection_items, hf] at h
            cases h
            exact ⟨rfl, d, rfl⟩
        · simp [findById, hmk] at h
    · rcases storeFail with _ | e
      · rcases hc : compileRegex (patternOf s) with _ | rx
        · simp [findByDescription, hc] at h
        · simp [findByDescription, hc, Collection.findAll, collection_items] at h
          cases h
          constructor
          · by_cases hp : 0 < (db.items.filter
                (fun x => rsearch true rx x.itemDescription.data)).length
            · simp [hp]
            · simp [hp]
          · exact ⟨_, rfl⟩
      · simp [findByDescription] at h
    · rcases storeFail with _ | e
      · rcases hf : db.items.find? (fun x => x.upc == jsToString u) with _ | d
        · simp [findByUpc, Collection.findOne, collection_items, hf] at h
          cases h
          exact ⟨Or.inr rfl, none, rfl⟩
        · simp [findByUpc, Collection.findOne, collection_items, hf] at h
          cases h
          exact ⟨Or.inl rfl, some d, rfl⟩
      · simp [findByUpc] at h

/-- C10 witness: concrete resolved envelopes from all three operations on
the scenario store satisfy the invariant. -/
theorem resolved_envelope_invariant_w :
    ((⟨serializeDoc sampleDoc, 200⟩ : Envelope).statusCode = 200 ∧
      ∃ d, (⟨serializeDoc sampleDoc, 200⟩ : Envelope).data = serializeDoc d) ∧
    (((⟨serializeDocs [sampleDoc], 200⟩ : Envelope).statusCode = 200 ∨
        (⟨serializeDocs [sampleDoc], 200⟩ : Envelope).statusCode = 404) ∧
      ∃ ds, (⟨serializeDocs [sampleDoc], 200⟩ : Envelope).data = serializeDocs ds) ∧
    (((⟨serializeOptDoc (some sampleDoc), 200⟩ : Envelope).statusCode = 200 ∨
        (⟨serializeOptDoc (some sampleDoc), 200⟩ : Envelope).statusCode = 404) ∧
      ∃ od, (⟨serializeOptDoc (some sampleDoc), 200⟩ : Envelope).data =
        serializeOptDoc od) :=
  ⟨(resolved_envelope_invariant (some sampleDb) none sampleDoc.docId "Red"
      (.str "00012345")).1 ⟨serializeDoc sampleDoc, 200⟩ (by decide),
    (resolved_envelope_invariant (some sampleDb) none sampleDoc.docId "Red"
      (.str "00012345")).2.1 ⟨serializeDocs [sampleDoc], 200⟩ (by decide),
    (resolved_envelope_invariant (some sampleDb) none sampleDoc.docId "Red"
      (.str "00012345")).2.2 ⟨serializeOptDoc (some sampleDoc), 200⟩ (by decide)⟩
